import Mathlib

/-!
Verification development for the Accurate sales-dashboard pipeline
(`parser_accurate_html.py`, `database.py`, `main.py`).

The Python source is shallowly embedded below.  Strings are manipulated
as `List Char` (mirroring Python `str` operations character by
character); Python `float` amounts are modelled exactly as `Rat`
(every amount appearing in the claims is integer-valued and far below
2^53, where IEEE doubles are exact); Python `None` is `Option.none`;
functions that can raise are embedded with an `Option` result.
-/

namespace Pbiacis

/-- A row of the `sales_detail` table, as the dicts returned by
`fetch_sales` and consumed by `build_dashboard_data`.  Per the SQLite
schema, `invoice_date` and `invoice_no` are NOT NULL text and every
other text column is nullable; `qty` and `amount` are nullable REAL. -/
structure SalesRow where
  invoice_date : String
  invoice_no : String
  customer : Option String
  salesman : Option String
  item : Option String
  qty : Option Rat
  amount : Option Rat
  item_category : Option String
  city : Option String
  customer_type : Option String
deriving DecidableEq, Repr

/-! ### Character-level helpers for the Python string operations -/

/-- Python `str.strip()` (whitespace on both ends). -/
def pyStrip (l : List Char) : List Char :=
  ((l.dropWhile Char.isWhitespace).reverse.dropWhile Char.isWhitespace).reverse

/-- Helper for `pySplitWs`: accumulates the current (reversed) token. -/
def pySplitWsGo : List Char → List Char → List (List Char)
  | [], cur => if cur = [] then [] else [cur.reverse]
  | c :: cs, cur =>
    if c.isWhitespace then
      if cur = [] then pySplitWsGo cs [] else cur.reverse :: pySplitWsGo cs []
    else pySplitWsGo cs (c :: cur)

/-- Python `str.split()` with no argument: split on whitespace runs,
discarding empty tokens. -/
def pySplitWs (l : List Char) : List (List Char) := pySplitWsGo l []

/-- Python `str.split(sep)` for a one-character separator (empty pieces
kept), used to model the `strptime` field decomposition on `-` / `/`. -/
def splitOnChar (sep : Char) : List Char → List (List Char)
  | [] => [[]]
  | c :: cs =>
    match splitOnChar sep cs with
    | [] => [[c]]
    | t :: ts => if c = sep then [] :: t :: ts else (c :: t) :: ts

/-- Numeric value of a digit list (meaningful when all are digits). -/
def digitsVal (l : List Char) : Nat :=
  l.foldl (fun n c => n * 10 + (c.toNat - 48)) 0

def allDigits (l : List Char) : Bool := !l.isEmpty && l.all Char.isDigit

/-- Python `int(s)` on a whitespace-free token: optional sign, then
digits with single underscores allowed between digits. -/
def pyIntCore : Nat → List Char → Option Nat
  | acc, [] => some acc
  | acc, c :: cs =>
    if c.isDigit then pyIntCore (acc * 10 + (c.toNat - 48)) cs
    else if c = '_' then
      match cs with
      | d :: _ => if d.isDigit then pyIntCore acc cs else none
      | [] => none
    else none

def pyIntDigits (l : List Char) : Option Nat :=
  match l with
  | [] => none
  | c :: _ => if c.isDigit then pyIntCore 0 l else none

def pyInt (l : List Char) : Option Int :=
  match l with
  | '+' :: rest => (pyIntDigits rest).map Int.ofNat
  | '-' :: rest => (pyIntDigits rest).map (fun n => -(n : Int))
  | _ => (pyIntDigits l).map Int.ofNat

/-! ### Calendar arithmetic (Python `datetime` validity) -/

def isLeap (y : Nat) : Bool := y % 4 = 0 && (y % 100 != 0 || y % 400 = 0)

def daysInMonth (y m : Nat) : Nat :=
  if m = 2 then (if isLeap y then 29 else 28)
  else if m = 4 ∨ m = 6 ∨ m = 9 ∨ m = 11 then 30
  else 31

/-- `datetime(year, month, day)` succeeds (month is 1..12 already). -/
def validYMD (y m d : Nat) : Bool :=
  1 ≤ y && y ≤ 9999 && 1 ≤ d && d ≤ daysInMonth y m

/-! ### `MONTH_MAP` and `_parse_date` (parser_accurate_html.py) -/

/-- `MONTH_MAP`: Indonesian/English month-name abbreviations. -/
def MONTH_MAP (key : String) : Option Nat :=
  if key = "JAN" then some 1
  else if key = "FEB" then some 2
  else if key = "MAR" then some 3
  else if key = "APR" then some 4
  else if key = "MEI" then some 5
  else if key = "MAY" then some 5
  else if key = "JUN" then some 6
  else if key = "JUL" then some 7
  else if key = "AUG" then some 8
  else if key = "AGU" then some 8
  else if key = "SEP" then some 9
  else if key = "OCT" then some 10
  else if key = "OKT" then some 10
  else if key = "NOV" then some 11
  else if key = "DEC" then some 12
  else if key = "DES" then some 12
  else none

/-- `mon_str[:3].upper()`. -/
def monKey (mon : List Char) : String := String.mk ((mon.take 3).map Char.toUpper)

def pad2 (n : Nat) : String := if n < 10 then "0" ++ toString n else toString n

def pad4 (n : Nat) : String :=
  if n < 10 then "000" ++ toString n
  else if n < 100 then "00" ++ toString n
  else if n < 1000 then "0" ++ toString n
  else toString n

/-- `dt.strftime("%Y-%m-%d")`. -/
def formatYMD (y m d : Nat) : String := pad4 y ++ "-" ++ pad2 m ++ "-" ++ pad2 d

/-- `_parse_date` (parser_accurate_html.py lines 59-81): canonicalize
the free-text `"01 Des 2025"` form; on any failure return the
(stripped) text. -/
def parse_date (text : String) : String :=
  let t := pyStrip text.toList
  if t = [] then String.mk t
  else
    match pySplitWs t with
    | [dayStr, monStr, yearStr] =>
      match MONTH_MAP (monKey monStr) with
      | none => String.mk t
      | some month =>
        match pyInt dayStr, pyInt yearStr with
        | some day, some year =>
          if 0 ≤ day ∧ 0 ≤ year ∧ validYMD year.toNat month day.toNat then
            formatYMD year.toNat month day.toNat
          else String.mk t
        | _, _ => String.mk t
    | _ => String.mk t

/-! ### `_parse_number` (parser_accurate_html.py lines 84-98) -/

/-- `re.sub(r"[^0-9-]", "", text)`. -/
def cleanNum (l : List Char) : List Char := l.filter (fun c => c.isDigit || c = '-')

/-- `float(cleaned)` for a digit/minus string: succeeds exactly on
an optional leading minus followed by at least one digit. -/
def floatOfCleaned (l : List Char) : Option Rat :=
  match l with
  | '-' :: rest => if allDigits rest then some (-(digitsVal rest : Rat)) else none
  | _ => if allDigits l then some (digitsVal l : Rat) else none

/-- `_parse_number`: extract a number from text, `None` when empty or
reduced to a lone minus (or otherwise unparseable). -/
def parse_number (text : String) : Option Rat :=
  let t := pyStrip text.toList
  if t = [] then none
  else
    let cleaned := cleanNum t
    if cleaned = [] ∨ cleaned = ['-'] then none
    else floatOfCleaned cleaned

/-! ### `_parse_any_date` (database.py lines 112-127)

Python `datetime.strptime` with formats `%Y-%m-%d`, `%d/%m/%Y`,
`%d/%m/%y`: `%Y` matches exactly four digits, `%y` exactly two
(69-99 → 1900s, 00-68 → 2000s), `%m`/`%d` one or two digits with a
leading zero only in the two-digit `01`-`09` forms, the whole string
must be consumed, and the resulting `datetime` must be a valid
calendar date. -/

/-- `%m` / `%d` field: 1-2 digits, value `1..hi` (so `0`/`00` fail). -/
def field12 (l : List Char) (hi : Nat) : Option Nat :=
  if (l.length = 1 ∨ l.length = 2) ∧ allDigits l then
    let v := digitsVal l
    if 1 ≤ v ∧ v ≤ hi then some v else none
  else none

/-- `%Y` field: exactly four digits. -/
def field4 (l : List Char) : Option Nat :=
  if l.length = 4 ∧ allDigits l then some (digitsVal l) else none

/-- `%y` field: exactly two digits, with the 1969-2068 pivot. -/
def field2y (l : List Char) : Option Nat :=
  if l.length = 2 ∧ allDigits l then
    let v := digitsVal l
    some (if v ≤ 68 then 2000 + v else 1900 + v)
  else none

/-- A parsed calendar date `(year, month, day)`. -/
abbrev YMD := Nat × Nat × Nat

def strptimeIso (l : List Char) : Option YMD :=
  match splitOnChar '-' l with
  | [ys, ms, ds] =>
    match field4 ys, field12 ms 12, field12 ds 31 with
    | some y, some m, some d => if validYMD y m d then some (y, m, d) else none
    | _, _, _ => none
  | _ => none

def strptimeSlash4 (l : List Char) : Option YMD :=
  match splitOnChar '/' l with
  | [ds, ms, ys] =>
    match field12 ds 31, field12 ms 12, field4 ys with
    | some d, some m, some y => if validYMD y m d then some (y, m, d) else none
    | _, _, _ => none
  | _ => none

def strptimeSlash2 (l : List Char) : Option YMD :=
  match splitOnChar '/' l with
  | [ds, ms, ys] =>
    match field12 ds 31, field12 ms 12, field2y ys with
    | some d, some m, some y => if validYMD y m d then some (y, m, d) else none
    | _, _, _ => none
  | _ => none

/-- `_parse_any_date`: try the three formats in order; `None` when all
fail or the input is empty. -/
def parse_any_date (s : String) : Option YMD :=
  if s = "" then none
  else
    match strptimeIso s.toList with
    | some d => some d
    | none =>
      match strptimeSlash4 s.toList with
      | some d => some d
      | none => strptimeSlash2 s.toList

/-- Chronological (= lexicographic) strict order on parsed dates, the
Python `date` comparison. -/
def dateLt (a b : YMD) : Bool :=
  a.1 < b.1 ∨ (a.1 = b.1 ∧ (a.2.1 < b.2.1 ∨ (a.2.1 = b.2.1 ∧ a.2.2 < b.2.2)))

def dateLe (a b : YMD) : Bool := dateLt a b || a = b

/-! ### `fetch_sales` (database.py lines 130-187) -/

/-- Python truthiness of the optional bound strings (`None` and `""`
are both falsy). -/
def boundActive : Option String → Bool
  | none => false
  | some s => !(s == "")

/-- `datetime.strptime(bound, "%Y-%m-%d")` on an active bound; the
outer `none` models the uncaught `ValueError`. -/
def boundVal : Option String → Option (Option YMD)
  | none => some none
  | some s => if s == "" then some none else (strptimeIso s.toList).map some

/-- The per-record filter of `fetch_sales`: keep a record iff its
`invoice_date` parses and is within the (inclusive) bounds. -/
def keepRow (startD endD : Option YMD) (r : SalesRow) : Bool :=
  match parse_any_date r.invoice_date with
  | none => false
  | some dv =>
    (match startD with | none => true | some s => !dateLt dv s) &&
    (match endD with | none => true | some e => !dateLt e dv)

/-- `fetch_sales` over an already-fetched row list: with no active
bound return every row; otherwise parse the bounds (`none` = raised
`ValueError`) and filter in Python. -/
def fetch_sales (rows : List SalesRow) (start_date end_date : Option String) :
    Option (List SalesRow) :=
  if !boundActive start_date && !boundActive end_date then some rows
  else
    match boundVal start_date, boundVal end_date with
    | some sd, some ed => some (rows.filter (keepRow sd ed))
    | _, _ => none

/-! ### `parse_html_content` (parser_accurate_html.py lines 101-156)

The extractor is embedded at the row level: BeautifulSoup delivers, for
each `<tr>`, the list of its `<td>` cell texts (already
whitespace-stripped by `get_text(strip=True)`). -/

/-- `tds[i].get_text(strip=True)` (index guarded by the length check). -/
def cell (tds : List String) (i : Nat) : String := tds.getD i ""

/-- One iteration of the `parse_html_content` loop: `none` when the row
is skipped (fewer than 38 cells, empty date cell, or header row). -/
def parseRow (tds : List String) : Option SalesRow :=
  if tds.length < 38 then none
  else
    let date_text := cell tds 1
    if date_text = "" ∨ date_text = "Date" then none
    else
      let item_category := if tds.length > 29 then cell tds 29 else ""
      let city := if tds.length > 33 then cell tds 33 else ""
      let customer_type := if tds.length > 37 then cell tds 37 else ""
      some
        { invoice_date := parse_date date_text
          invoice_no := cell tds 5
          customer := some (cell tds 9)
          salesman := some (cell tds 13)
          item := some (cell tds 17)
          qty := parse_number (cell tds 21)
          amount := parse_number (cell tds 25)
          item_category := if item_category = "" then none else some item_category
          city := if city = "" then none else some city
          customer_type := if customer_type = "" then none else some customer_type }

/-- `parse_html_content`: one record per qualifying row, in order. -/
def parse_html_content (trs : List (List String)) : List SalesRow :=
  trs.filterMap parseRow

/-! ### Aggregation engine (main.py lines 173-357) -/

/-- The six group-by dimensions. -/
inductive DimKey | customer | customer_type | city | salesman | item | item_category
deriving DecidableEq, Repr

/-- `r.get(key)` for a dimension key. -/
def dimVal (r : SalesRow) : DimKey → Option String
  | .customer => r.customer
  | .customer_type => r.customer_type
  | .city => r.city
  | .salesman => r.salesman
  | .item => r.item
  | .item_category => r.item_category

/-- `label = r.get(key); if not label: continue` — the label used for
grouping, `none` when the value is absent or the empty string. -/
def getLabel (r : SalesRow) (key : DimKey) : Option String :=
  match dimVal r key with
  | none => none
  | some s => if s = "" then none else some s

/-- `float(r.get("amount") or 0)`. -/
def amtOf (r : SalesRow) : Rat :=
  match r.amount with
  | none => 0
  | some a => a

/-- `totals[label] += amount` on an insertion-ordered association list
(a Python dict keeps each key at its first-insertion position). -/
def addRow : List (String × Rat) → String → Rat → List (String × Rat)
  | [], l, a => [(l, a)]
  | (k, v) :: t, l, a =>
    if k = l then (k, v + a) :: t else (k, v) :: addRow t l a

/-- The accumulation loop of `_aggregate_top_n`. -/
def aggStep (key : DimKey) (t : List (String × Rat)) (r : SalesRow) :
    List (String × Rat) :=
  match getLabel r key with
  | none => t
  | some l => addRow t l (amtOf r)

/-- `totals` of `_aggregate_top_n`, in key-first-insertion order. -/
def aggTotals (rows : List SalesRow) (key : DimKey) : List (String × Rat) :=
  rows.foldl (aggStep key) []

/-- The comparison of `sorted(..., key=lambda x: x[1], reverse=True)`:
amount descending.  Python's sort is stable, as is `insertionSort`. -/
def amtGe (a b : String × Rat) : Prop := b.2 ≤ a.2

instance : DecidableRel amtGe := fun a b => inferInstanceAs (Decidable (b.2 ≤ a.2))
instance : IsTotal (String × Rat) amtGe := ⟨fun a b => le_total b.2 a.2⟩
instance : IsTrans (String × Rat) amtGe := ⟨fun _ _ _ h1 h2 => le_trans h2 h1⟩

/-- `_aggregate_top_n` (main.py lines 173-188): per-dimension totals,
stably sorted by amount descending, truncated to `n`. -/
def aggregate_top_n (rows : List SalesRow) (key : DimKey) (n : Nat) :
    List (String × Rat) :=
  (List.insertionSort amtGe (aggTotals rows key)).take n

/-- `_get_year_month` (main.py lines 191-207): same three-format chain
as `_parse_any_date`, keeping `(year, month)`. -/
def get_year_month (s : String) : Option (Nat × Nat) :=
  (parse_any_date s).map (fun d => (d.1, d.2.1))

/-- `_get_prev_year_month` (main.py lines 210-213). -/
def get_prev_year_month (y m : Nat) : Nat × Nat :=
  if m = 1 then (y - 1, 12) else (y, m - 1)

/-- Python tuple `<` on `(year, month)`. -/
def ymLt (a b : Nat × Nat) : Bool := a.1 < b.1 ∨ (a.1 = b.1 ∧ a.2 < b.2)

def ymLe (a b : Nat × Nat) : Bool := ymLt a b || a = b

/-- Python `max` over a nonempty list of `(year, month)` tuples
(lexicographic). -/
def pyMax : List (Nat × Nat) → Option (Nat × Nat)
  | [] => none
  | x :: xs => some (xs.foldl (fun a b => if ymLt a b then b else a) x)

/-- `all_months`: the `(year, month)` pairs of the parseable dates. -/
def allMonths (rows : List SalesRow) : List (Nat × Nat) :=
  rows.filterMap (fun r => get_year_month r.invoice_date)

/-- The `cur_total`/`prev_total` loop of `build_dashboard_data`
(lines 314-326): one pass, `if`/`elif` on the two month buckets. -/
def momTotals (rows : List SalesRow) (base prev : Nat × Nat) : Rat × Rat :=
  rows.foldl
    (fun acc r =>
      match get_year_month r.invoice_date with
      | none => acc
      | some ym =>
        if ym = base then (acc.1 + amtOf r, acc.2)
        else if ym = prev then (acc.1, acc.2 + amtOf r)
        else acc)
    (0, 0)

/-- Total amount of the records falling in one `(year, month)` bucket. -/
def monthSum (rows : List SalesRow) (ym : Nat × Nat) : Rat :=
  (rows.map (fun r =>
    if get_year_month r.invoice_date = some ym then amtOf r else 0)).sum

/-- Comparison for `data_list.sort(key=lambda x: x["current"],
reverse=True)`: current-period sum descending. -/
def curGe (a b : String × Rat × Rat) : Prop := b.2.1 ≤ a.2.1

instance : DecidableRel curGe := fun a b => inferInstanceAs (Decidable (b.2.1 ≤ a.2.1))
instance : IsTotal (String × Rat × Rat) curGe := ⟨fun a b => le_total b.2.1 a.2.1⟩
instance : IsTrans (String × Rat × Rat) curGe := ⟨fun _ _ _ h1 h2 => le_trans h2 h1⟩

/-- First-match association lookup (`dict.get(label, 0.0)`). -/
def lookupD (t : List (String × Rat)) (l : String) : Rat :=
  match t with
  | [] => 0
  | (k, v) :: rest => if k = l then v else lookupD rest l

/-- `_build_monthly_top` (main.py lines 216-265): per-dimension sums
for the base and previous months, one entry per label seen in either,
sorted by current-period sum descending, top 10.  (Python iterates the
label set in unspecified order; the embedding fixes the deterministic
first-seen order, which the sort key then dominates.) -/
def build_monthly_top (rows : List SalesRow) (dim : DimKey) (baseY baseM : Nat) :
    List (String × Rat × Rat) :=
  let prev := get_prev_year_month baseY baseM
  let tot :=
    rows.foldl
      (fun (acc : List (String × Rat) × List (String × Rat)) r =>
        match get_year_month r.invoice_date with
        | none => acc
        | some ym =>
          match getLabel r dim with
          | none => acc
          | some l =>
            if ym = (baseY, baseM) then (addRow acc.1 l (amtOf r), acc.2)
            else if ym = prev then (acc.1, addRow acc.2 l (amtOf r))
            else acc)
      ([], [])
  let curKeys := tot.1.map Prod.fst
  let labels := curKeys ++ (tot.2.map Prod.fst).filter (fun l => !curKeys.contains l)
  let data := labels.map (fun l => (l, lookupD tot.1 l, lookupD tot.2 l))
  (List.insertionSort curGe data).take 10

/-- The `customers_set` accumulation of `build_dashboard_data`
(lines 281-283), as an insertion-ordered duplicate-free list. -/
def customersList (rows : List SalesRow) : List String :=
  rows.foldl
    (fun acc r =>
      match r.customer with
      | none => acc
      | some c => if c = "" then acc else if acc.contains c then acc else acc ++ [c])
    []

/-- The summary payload returned by `build_dashboard_data`. -/
structure Dashboard where
  total_sales : Rat
  customer_count : Nat
  top_customer : String
  top10_customer : List (String × Rat)
  top10_customer_type : List (String × Rat)
  top10_city : List (String × Rat)
  top10_salesman : List (String × Rat)
  top10_item : List (String × Rat)
  top10_category : List (String × Rat)
  total_month_current : Option Rat
  total_month_prev : Option Rat
  total_month_diff : Option Rat
  total_month_diff_pct : Option Rat
  item_mom_top10 : List (String × Rat × Rat)
  salesman_mom_top10 : List (String × Rat × Rat)
deriving DecidableEq, Repr

/-- `build_dashboard_data` (main.py lines 268-357). -/
def build_dashboard_data (rows : List SalesRow) : Dashboard :=
  let top10_customer := aggregate_top_n rows .customer 10
  let months := allMonths rows
  match pyMax months with
  | none =>
    { total_sales := (rows.map amtOf).sum
      customer_count := (customersList rows).length
      top_customer := match top10_customer with | [] => "-" | p :: _ => p.1
      top10_customer := top10_customer
      top10_customer_type := aggregate_top_n rows .customer_type 10
      top10_city := aggregate_top_n rows .city 10
      top10_salesman := aggregate_top_n rows .salesman 10
      top10_item := aggregate_top_n rows .item 10
      top10_category := aggregate_top_n rows .item_category 10
      total_month_current := none
      total_month_prev := none
      total_month_diff := none
      total_month_diff_pct := none
      item_mom_top10 := []
      salesman_mom_top10 := [] }
  | some base =>
    let prev := get_prev_year_month base.1 base.2
    let t := momTotals rows base prev
    { total_sales := (rows.map amtOf).sum
      customer_count := (customersList rows).length
      top_customer := match top10_customer with | [] => "-" | p :: _ => p.1
      top10_customer := top10_customer
      top10_customer_type := aggregate_top_n rows .customer_type 10
      top10_city := aggregate_top_n rows .city 10
      top10_salesman := aggregate_top_n rows .salesman 10
      top10_item := aggregate_top_n rows .item 10
      top10_category := aggregate_top_n rows .item_category 10
      total_month_current := some t.1
      total_month_prev := some t.2
      total_month_diff := some (t.1 - t.2)
      total_month_diff_pct := if t.2 ≠ 0 then some ((t.1 - t.2) / t.2) else none
      item_mom_top10 := build_monthly_top rows .item base.1 base.2
      salesman_mom_top10 := build_monthly_top rows .salesman base.1 base.2 }

/-! ### Order lemmas for parsed dates and months -/

theorem dateLt_iff (a b : YMD) :
    dateLt a b = true ↔
      a.1 < b.1 ∨ (a.1 = b.1 ∧ (a.2.1 < b.2.1 ∨ (a.2.1 = b.2.1 ∧ a.2.2 < b.2.2))) := by
  simp [dateLt]

theorem dateLe_iff_not_lt (a b : YMD) : dateLe a b = true ↔ ¬ dateLt b a = true := by
  obtain ⟨a1, a2, a3⟩ := a
  obtain ⟨b1, b2, b3⟩ := b
  simp [dateLt, dateLe, Prod.ext_iff]
  omega

theorem ymLt_iff (a b : Nat × Nat) :
    ymLt a b = true ↔ a.1 < b.1 ∨ (a.1 = b.1 ∧ a.2 < b.2) := by
  simp [ymLt]

theorem ymLe_iff (a b : Nat × Nat) :
    ymLe a b = true ↔ a.1 < b.1 ∨ (a.1 = b.1 ∧ a.2 ≤ b.2) := by
  obtain ⟨a1, a2⟩ := a
  obtain ⟨b1, b2⟩ := b
  simp [ymLt, ymLe, Prod.ext_iff]
  omega

/-! ### Claim C1: the query filter -/

theorem keepRow_none (sd ed : Option YMD) (r : SalesRow)
    (h : parse_any_date r.invoice_date = none) : keepRow sd ed r = false := by
  simp [keepRow, h]

theorem keepRow_iff (sd ed : Option YMD) (r : SalesRow) :
    keepRow sd ed r = true ↔
      ∃ dv, parse_any_date r.invoice_date = some dv ∧
        (∀ s, sd = some s → dateLe s dv = true) ∧
        (∀ e, ed = some e → dateLe dv e = true) := by
  unfold keepRow
  cases hp : parse_any_date r.invoice_date with
  | none => simp
  | some dv =>
    simp only [Bool.and_eq_true, Option.some.injEq]
    constructor
    · rintro ⟨h1, h2⟩
      refine ⟨dv, rfl, ?_, ?_⟩
      · intro s hs
        subst hs
        simp only [Bool.not_eq_true'] at h1
        rw [dateLe_iff_not_lt]
        simp [h1]
      · intro e he
        subst he
        simp only [Bool.not_eq_true'] at h2
        rw [dateLe_iff_not_lt]
        simp [h2]
    · rintro ⟨dv', hdv, h1, h2⟩
      rw [← hdv] at h1 h2
      constructor
      · cases sd with
        | none => rfl
        | some s =>
          have := (dateLe_iff_not_lt s dv).mp (h1 s rfl)
          simpa using this
      · cases ed with
        | none => rfl
        | some e =>
          have := (dateLe_iff_not_lt dv e).mp (h2 e rfl)
          simpa using this

/-- Claim C1: with neither bound active `fetch_sales` returns every
stored record (unparseable `invoice_date` included); with an active
bound it returns exactly the records whose `invoice_date` parses under
one of the three formats and whose parsed date lies within the bounds,
both comparisons inclusive, so unparseable records are excluded. -/
theorem claim_C1 (rows : List SalesRow) (sb eb : Option String) :
    (boundActive sb = false → boundActive eb = false →
      fetch_sales rows sb eb = some rows) ∧
    (∀ sd ed, (boundActive sb = true ∨ boundActive eb = true) →
      boundVal sb = some sd → boundVal eb = some ed →
      fetch_sales rows sb eb = some (rows.filter (keepRow sd ed)) ∧
      (∀ r, keepRow sd ed r = true ↔
        ∃ dv, parse_any_date r.invoice_date = some dv ∧
          (∀ s, sd = some s → dateLe s dv = true) ∧
          (∀ e, ed = some e → dateLe dv e = true)) ∧
      (∀ r, parse_any_date r.invoice_date = none → keepRow sd ed r = false)) := by
  constructor
  · intro ha hb
    simp [fetch_sales, ha, hb]
  · intro sd ed hact hsv hev
    have hcond : (!boundActive sb && !boundActive eb) = false := by
      rcases hact with h | h <;> simp [h]
    refine ⟨?_, keepRow_iff sd ed, keepRow_none sd ed⟩
    simp [fetch_sales, hcond, hsv, hev]

theorem claim_C1_witness :
    fetch_sales ([] : List SalesRow) (some "2025-01-01") none = some [] := by
  have h :=
    (claim_C1 [] (some "2025-01-01") none).2 (some (2025, 1, 1)) none
      (Or.inl (by decide)) (by decide) rfl
  simpa using h.1

/-! ### Month-over-month lemmas (claims C2, C3) -/

theorem ymLe_refl (a : Nat × Nat) : ymLe a a = true := by simp [ymLe]

theorem ymLt_le {a b : Nat × Nat} (h : ymLt a b = true) : ymLe a b = true := by
  simp [ymLe, h]

theorem ym_not_lt_le {a b : Nat × Nat} (h : ymLt a b = false) : ymLe b a = true := by
  obtain ⟨a1, a2⟩ := a
  obtain ⟨b1, b2⟩ := b
  simp [ymLt, ymLe, Prod.ext_iff] at *
  omega

theorem ymLe_trans {a b c : Nat × Nat} (hab : ymLe a b = true) (hbc : ymLe b c = true) :
    ymLe a c = true := by
  obtain ⟨a1, a2⟩ := a
  obtain ⟨b1, b2⟩ := b
  obtain ⟨c1, c2⟩ := c
  simp [ymLt, ymLe, Prod.ext_iff] at *
  omega

/-- The fold implementing Python `max` returns a member that dominates
every element. -/
theorem pyMaxGo_spec :
    ∀ (xs : List (Nat × Nat)) (x : Nat × Nat),
      (xs.foldl (fun a b => if ymLt a b then b else a) x) ∈ x :: xs ∧
      ∀ ym ∈ x :: xs,
        ymLe ym (xs.foldl (fun a b => if ymLt a b then b else a) x) = true := by
  intro xs
  induction xs with
  | nil =>
    intro x
    refine ⟨by simp, ?_⟩
    intro ym hym
    rw [List.mem_singleton] at hym
    subst hym
    exact ymLe_refl ym
  | cons y ys ih =>
    intro x
    obtain ⟨hmem, hdom⟩ := ih (if ymLt x y then y else x)
    rw [List.foldl_cons]
    constructor
    · rcases List.mem_cons.mp hmem with h | h
      · rw [h]
        by_cases hxy : ymLt x y = true
        · simp [hxy]
        · simp [Bool.not_eq_true] at hxy
          simp [hxy]
      · simp [List.mem_cons, h]
    · intro ym hym
      have hhead := hdom (if ymLt x y then y else x) (List.mem_cons_self _ _)
      rcases List.mem_cons.mp hym with h | h
      · subst h
        by_cases hxy : ymLt ym y = true
        · exact ymLe_trans (ymLt_le hxy) (by simpa [hxy] using hhead)
        · simp [Bool.not_eq_true] at hxy
          simpa [hxy] using hhead
      rcases List.mem_cons.mp h with h' | h'
      · subst h'
        by_cases hxy : ymLt x ym = true
        · simpa [hxy] using hhead
        · simp [Bool.not_eq_true] at hxy
          exact ymLe_trans (ym_not_lt_le hxy) (by simpa [hxy] using hhead)
      · exact hdom ym (List.mem_cons_of_mem _ h')

theorem pyMax_spec (l : List (Nat × Nat)) (h : l ≠ []) :
    ∃ b, pyMax l = some b ∧ b ∈ l ∧ ∀ ym ∈ l, ymLe ym b = true := by
  cases l with
  | nil => exact absurd rfl h
  | cons x xs =>
    obtain ⟨hmem, hdom⟩ := pyMaxGo_spec xs x
    exact ⟨_, rfl, hmem, hdom⟩

theorem monthSum_nil (ym : Nat × Nat) : monthSum [] ym = 0 := rfl

theorem monthSum_cons (r : SalesRow) (rows : List SalesRow) (ym : Nat × Nat) :
    monthSum (r :: rows) ym =
      (if get_year_month r.invoice_date = some ym then amtOf r else 0) +
        monthSum rows ym := by
  simp [monthSum]

/-- The one-pass `if`/`elif` loop computes the two month bucket sums
(the buckets are distinct, so the `elif` loses nothing). -/
theorem momTotals_eq (base prev : Nat × Nat) (hne : base ≠ prev) (rows : List SalesRow) :
    momTotals rows base prev = (monthSum rows base, monthSum rows prev) := by
  have go :
      ∀ (rs : List SalesRow) (acc : Rat × Rat),
        rs.foldl
          (fun acc r =>
            match get_year_month r.invoice_date with
            | none => acc
            | some ym =>
              if ym = base then (acc.1 + amtOf r, acc.2)
              else if ym = prev then (acc.1, acc.2 + amtOf r)
              else acc)
          acc =
        (acc.1 + monthSum rs base, acc.2 + monthSum rs prev) := by
    intro rs
    induction rs with
    | nil => intro acc; simp [monthSum]
    | cons r rs ih =>
      intro acc
      rw [List.foldl_cons, ih, monthSum_cons, monthSum_cons]
      cases hg : get_year_month r.invoice_date with
      | none => simp [hg]
      | some ym =>
        rcases eq_or_ne ym base with rfl | hb
        · have e : (ym = prev) = False := by simp [hne]
          simp [hg, e, add_assoc]
        · rcases eq_or_ne ym prev with rfl | hp
          · have e : (ym = base) = False := by simp [hb]
            simp [hg, e, add_assoc]
          · have e1 : (ym = base) = False := by simp [hb]
            have e2 : (ym = prev) = False := by simp [hp]
            simp [hg, e1, e2]
  have := go rows (0, 0)
  simpa [momTotals] using this

/-- Field characterization of `build_dashboard_data` when at least one
month was found. -/
theorem build_dashboard_month_fields (rows : List SalesRow) (base : Nat × Nat)
    (h : pyMax (allMonths rows) = some base) :
    (build_dashboard_data rows).total_month_current =
      some (momTotals rows base (get_prev_year_month base.1 base.2)).1 ∧
    (build_dashboard_data rows).total_month_prev =
      some (momTotals rows base (get_prev_year_month base.1 base.2)).2 ∧
    (build_dashboard_data rows).total_month_diff =
      some ((momTotals rows base (get_prev_year_month base.1 base.2)).1 -
        (momTotals rows base (get_prev_year_month base.1 base.2)).2) ∧
    (build_dashboard_data rows).total_month_diff_pct =
      (if (momTotals rows base (get_prev_year_month base.1 base.2)).2 ≠ 0 then
        some (((momTotals rows base (get_prev_year_month base.1 base.2)).1 -
          (momTotals rows base (get_prev_year_month base.1 base.2)).2) /
          (momTotals rows base (get_prev_year_month base.1 base.2)).2)
      else none) := by
  simp only [build_dashboard_data, h]
  exact ⟨trivial, trivial, trivial, trivial⟩

theorem build_dashboard_no_month (rows : List SalesRow)
    (h : pyMax (allMonths rows) = none) :
    (build_dashboard_data rows).total_month_current = none ∧
    (build_dashboard_data rows).total_month_prev = none ∧
    (build_dashboard_data rows).total_month_diff = none ∧
    (build_dashboard_data rows).total_month_diff_pct = none := by
  simp only [build_dashboard_data, h]
  exact ⟨trivial, trivial, trivial, trivial⟩

theorem field12_bounds {l : List Char} {hi v : Nat} (h : field12 l hi = some v) :
    1 ≤ v ∧ v ≤ hi := by
  unfold field12 at h
  split_ifs at h with h1
  have h' : (1 ≤ digitsVal l ∧ digitsVal l ≤ hi) ∧ digitsVal l = v := by
    simpa using h
  obtain ⟨hb, rfl⟩ := h'
  exact hb

theorem strptimeIso_bounds {l : List Char} {d : YMD} (h : strptimeIso l = some d) :
    1 ≤ d.2.1 ∧ d.2.1 ≤ 12 := by
  unfold strptimeIso at h
  split at h
  · split at h
    · rename_i y m dd hy hm hd
      split at h
      · obtain rfl : (y, m, dd) = d := by simpa using h
        simpa using field12_bounds hm
      · simp at h
    · simp at h
  · simp at h

theorem strptimeSlash4_bounds {l : List Char} {d : YMD} (h : strptimeSlash4 l = some d) :
    1 ≤ d.2.1 ∧ d.2.1 ≤ 12 := by
  unfold strptimeSlash4 at h
  split at h
  · split at h
    · rename_i dd m y hd hm hy
      split at h
      · obtain rfl : (y, m, dd) = d := by simpa using h
        simpa using field12_bounds hm
      · simp at h
    · simp at h
  · simp at h

theorem strptimeSlash2_bounds {l : List Char} {d : YMD} (h : strptimeSlash2 l = some d) :
    1 ≤ d.2.1 ∧ d.2.1 ≤ 12 := by
  unfold strptimeSlash2 at h
  split at h
  · split at h
    · rename_i dd m y hd hm hy
      split at h
      · obtain rfl : (y, m, dd) = d := by simpa using h
        simpa using field12_bounds hm
      · simp at h
    · simp at h
  · simp at h

theorem parse_any_date_month_bounds {s : String} {d : YMD}
    (h : parse_any_date s = some d) : 1 ≤ d.2.1 ∧ d.2.1 ≤ 12 := by
  unfold parse_any_date at h
  split_ifs at h
  cases h1 : strptimeIso s.toList with
  | some d1 =>
    rw [h1] at h
    obtain rfl : d1 = d := by simpa using h
    exact strptimeIso_bounds h1
  | none =>
    rw [h1] at h
    cases h2 : strptimeSlash4 s.toList with
    | some d2 =>
      rw [h2] at h
      obtain rfl : d2 = d := by simpa using h
      exact strptimeSlash4_bounds h2
    | none =>
      rw [h2] at h
      exact strptimeSlash2_bounds h

theorem get_year_month_bounds {s : String} {ym : Nat × Nat}
    (h : get_year_month s = some ym) : 1 ≤ ym.2 ∧ ym.2 ≤ 12 := by
  unfold get_year_month at h
  cases hp : parse_any_date s with
  | none => rw [hp] at h; simp at h
  | some dd =>
    rw [hp] at h
    obtain rfl : (dd.1, dd.2.1) = ym := by simpa using h
    simpa using parse_any_date_month_bounds hp

/-- The previous calendar month is never the base month itself (months
coming out of the parser are at least 1). -/
theorem get_prev_ne {y m : Nat} (h1 : 1 ≤ m) : get_prev_year_month y m ≠ (y, m) := by
  unfold get_prev_year_month
  split_ifs with h
  · simp [Prod.ext_iff]
    omega
  · simp [Prod.ext_iff]
    omega

/-- Claim C2: the month-over-month totals.  With at least one parseable
invoice date, the "current" month is the lexicographic maximum
`(year, month)` over the parseable dates, the "previous" month is the
calendar month before it (with year rollover at month 1), the two
totals are the bucket sums of `amount` (absent amount counting 0, and
unparseable dates contributing to no bucket by construction of
`monthSum`), and the difference is current minus previous. -/
theorem claim_C2 (rows : List SalesRow)
    (h : ∃ r ∈ rows, (get_year_month r.invoice_date).isSome = true) :
    ∃ base : Nat × Nat,
      pyMax (allMonths rows) = some base ∧
      base ∈ allMonths rows ∧
      (∀ ym ∈ allMonths rows, ym.1 < base.1 ∨ (ym.1 = base.1 ∧ ym.2 ≤ base.2)) ∧
      get_prev_year_month base.1 base.2 =
        (if base.2 = 1 then (base.1 - 1, 12) else (base.1, base.2 - 1)) ∧
      (build_dashboard_data rows).total_month_current = some (monthSum rows base) ∧
      (build_dashboard_data rows).total_month_prev =
        some (monthSum rows (get_prev_year_month base.1 base.2)) ∧
      (build_dashboard_data rows).total_month_diff =
        some (monthSum rows base -
          monthSum rows (get_prev_year_month base.1 base.2)) := by
  obtain ⟨r, hr, hsome⟩ := h
  rw [Option.isSome_iff_exists] at hsome
  obtain ⟨ym0, hym0⟩ := hsome
  have hmem0 : ym0 ∈ allMonths rows := List.mem_filterMap.mpr ⟨r, hr, hym0⟩
  have hnil : allMonths rows ≠ [] := by
    intro hn
    rw [hn] at hmem0
    simp at hmem0
  obtain ⟨base, hmax, hbmem, hdom⟩ := pyMax_spec _ hnil
  obtain ⟨rb, hrb, hgb⟩ := List.mem_filterMap.mp hbmem
  have hb := get_year_month_bounds hgb
  have hprev_ne : base ≠ get_prev_year_month base.1 base.2 := by
    intro he
    exact get_prev_ne hb.1 (by rw [← he])
  have hfields := build_dashboard_month_fields rows base hmax
  have hmt := momTotals_eq base (get_prev_year_month base.1 base.2) hprev_ne rows
  refine ⟨base, hmax, hbmem, ?_, rfl, ?_, ?_, ?_⟩
  · intro ym hym
    have := hdom ym hym
    rw [ymLe_iff] at this
    exact this
  · rw [hfields.1, hmt]
  · rw [hfields.2.1, hmt]
  · rw [hfields.2.2.1, hmt]

def c2row : SalesRow :=
  { invoice_date := "2026-01-02", invoice_no := "", customer := none,
    salesman := none, item := none, qty := none, amount := none,
    item_category := none, city := none, customer_type := none }

theorem claim_C2_witness :
    ∃ base : Nat × Nat,
      pyMax (allMonths [c2row]) = some base ∧
      base ∈ allMonths [c2row] ∧
      (∀ ym ∈ allMonths [c2row], ym.1 < base.1 ∨ (ym.1 = base.1 ∧ ym.2 ≤ base.2)) ∧
      get_prev_year_month base.1 base.2 =
        (if base.2 = 1 then (base.1 - 1, 12) else (base.1, base.2 - 1)) ∧
      (build_dashboard_data [c2row]).total_month_current =
        some (monthSum [c2row] base) ∧
      (build_dashboard_data [c2row]).total_month_prev =
        some (monthSum [c2row] (get_prev_year_month base.1 base.2)) ∧
      (build_dashboard_data [c2row]).total_month_diff =
        some (monthSum [c2row] base -
          monthSum [c2row] (get_prev_year_month base.1 base.2)) :=
  claim_C2 [c2row] ⟨c2row, by simp, by decide⟩

/-- Claim C3: the percentage is `(current − previous) / previous` when
the previous-month total is nonzero, and the `None` sentinel when it is
zero (or when there is no month data at all) — it is never produced by
a division (the embedding's `Option Rat` has no infinity or NaN). -/
theorem claim_C3 (rows : List SalesRow) :
    ((build_dashboard_data rows).total_month_prev = none →
      (build_dashboard_data rows).total_month_diff_pct = none) ∧
    (∀ c p : Rat, (build_dashboard_data rows).total_month_current = some c →
      (build_dashboard_data rows).total_month_prev = some p →
      ((p ≠ 0 → (build_dashboard_data rows).total_month_diff_pct =
          some ((c - p) / p)) ∧
       (p = 0 → (build_dashboard_data rows).total_month_diff_pct = none))) := by
  cases hm : pyMax (allMonths rows) with
  | none =>
    obtain ⟨h1, h2, h3, h4⟩ := build_dashboard_no_month rows hm
    constructor
    · intro _
      exact h4
    · intro c p hc _
      rw [h1] at hc
      simp at hc
  | some base =>
    obtain ⟨h1, h2, h3, h4⟩ := build_dashboard_month_fields rows base hm
    constructor
    · intro hnone
      rw [h2] at hnone
      simp at hnone
    · intro c p hc hp
      rw [h1] at hc
      rw [h2] at hp
      obtain rfl : (momTotals rows base (get_prev_year_month base.1 base.2)).1 = c :=
        Option.some.inj hc
      obtain rfl : (momTotals rows base (get_prev_year_month base.1 base.2)).2 = p :=
        Option.some.inj hp
      constructor
      · intro hpne
        rw [h4, if_pos hpne]
      · intro hp0
        rw [h4, if_neg (by simp [hp0])]

theorem claim_C3_witness :
    (build_dashboard_data ([] : List SalesRow)).total_month_diff_pct = none :=
  (claim_C3 []).1 ((build_dashboard_no_month [] rfl).2.1)

/-! ### Claim C4: Top-N machinery -/

/-- Sum of `amount` (absent counting 0) over the records of one group. -/
def groupSum (rows : List SalesRow) (key : DimKey) (l : String) : Rat :=
  ((rows.filter (fun r => getLabel r key == some l)).map amtOf).sum

/-- Index of the first record carrying a given (grouping) label. -/
def firstIdx (key : DimKey) (l : String) : List SalesRow → Nat
  | [] => 0
  | r :: rs => if getLabel r key = some l then 0 else firstIdx key l rs + 1

theorem groupSum_append (rows : List SalesRow) (r : SalesRow) (key : DimKey)
    (l : String) :
    groupSum (rows ++ [r]) key l =
      groupSum rows key l + (if getLabel r key = some l then amtOf r else 0) := by
  unfold groupSum
  rw [List.filter_append, List.map_append, List.sum_append]
  by_cases hc : getLabel r key = some l
  · simp [hc]
  · simp [hc]

theorem groupSum_of_not_occ {rows : List SalesRow} {key : DimKey} {l : String}
    (h : ¬ ∃ r ∈ rows, getLabel r key = some l) : groupSum rows key l = 0 := by
  unfold groupSum
  have hf : rows.filter (fun r => getLabel r key == some l) = [] := by
    rw [List.filter_eq_nil_iff]
    intro r hr
    simp only [beq_iff_eq]
    intro hc
    exact h ⟨r, hr, hc⟩
  rw [hf]
  simp

theorem firstIdx_append_of_occ {key : DimKey} {l : String} {rows : List SalesRow}
    (hocc : ∃ r ∈ rows, getLabel r key = some l) (r0 : SalesRow) :
    firstIdx key l (rows ++ [r0]) = firstIdx key l rows := by
  induction rows with
  | nil =>
    obtain ⟨r, hr, _⟩ := hocc
    simp at hr
  | cons r rs ih =>
    by_cases hc : getLabel r key = some l
    · simp [firstIdx, hc]
    · obtain ⟨r', hr', hg⟩ := hocc
      rcases List.mem_cons.mp hr' with rfl | hmem
      · exact absurd hg hc
      · simp only [List.cons_append, firstIdx, if_neg hc, List.append_eq]
        rw [ih ⟨r', hmem, hg⟩]

theorem firstIdx_lt_length_of_occ {key : DimKey} {l : String} {rows : List SalesRow}
    (hocc : ∃ r ∈ rows, getLabel r key = some l) :
    firstIdx key l rows < rows.length := by
  induction rows with
  | nil =>
    obtain ⟨r, hr, _⟩ := hocc
    simp at hr
  | cons r rs ih =>
    by_cases hc : getLabel r key = some l
    · simp [firstIdx, hc]
    · obtain ⟨r', hr', hg⟩ := hocc
      rcases List.mem_cons.mp hr' with rfl | hmem
      · exact absurd hg hc
      · simp only [firstIdx, if_neg hc, List.length_cons]
        exact Nat.succ_lt_succ (ih ⟨r', hmem, hg⟩)

theorem firstIdx_append_new {key : DimKey} {l : String} {rows : List SalesRow}
    {r0 : SalesRow} (hnocc : ¬ ∃ r ∈ rows, getLabel r key = some l)
    (hr0 : getLabel r0 key = some l) :
    firstIdx key l (rows ++ [r0]) = rows.length := by
  induction rows with
  | nil => simp [firstIdx, hr0]
  | cons r rs ih =>
    have hc : ¬ getLabel r key = some l := fun hc => hnocc ⟨r, by simp, hc⟩
    simp only [List.cons_append, firstIdx, if_neg hc, List.length_cons, List.append_eq]
    rw [ih (fun he => hnocc (by obtain ⟨r', hr', hg⟩ := he; exact ⟨r', by simp [hr'], hg⟩))]

/-- The value update done by `addRow` when the key is already present. -/
def bump (l : String) (a : Rat) (p : String × Rat) : String × Rat :=
  if p.1 = l then (p.1, p.2 + a) else p

theorem bump_fst (l : String) (a : Rat) (p : String × Rat) : (bump l a p).1 = p.1 := by
  unfold bump
  split_ifs <;> rfl

theorem map_bump_of_forall_ne {t : List (String × Rat)} {l : String} {a : Rat}
    (h : ∀ p ∈ t, p.1 ≠ l) : t.map (bump l a) = t := by
  induction t with
  | nil => rfl
  | cons p t ih =>
    have hp : (bump l a p) = p := by
      unfold bump
      rw [if_neg (h p (by simp))]
    rw [List.map_cons, hp, ih (fun q hq => h q (by simp [hq]))]

theorem addRow_of_forall_ne {t : List (String × Rat)} {l : String} {a : Rat}
    (h : ∀ p ∈ t, p.1 ≠ l) : addRow t l a = t ++ [(l, a)] := by
  induction t with
  | nil => rfl
  | cons p t ih =>
    obtain ⟨k, v⟩ := p
    have hk : k ≠ l := h (k, v) (by simp)
    simp only [addRow, if_neg hk, List.cons_append]
    rw [ih (fun q hq => h q (by simp [hq]))]

theorem addRow_eq_map_bump {t : List (String × Rat)} {l : String} {a : Rat}
    (hnd : t.Pairwise (fun p q => p.1 ≠ q.1)) (hmem : ∃ p ∈ t, p.1 = l) :
    addRow t l a = t.map (bump l a) := by
  induction t with
  | nil =>
    obtain ⟨p, hp, _⟩ := hmem
    simp at hp
  | cons p t ih =>
    obtain ⟨k, v⟩ := p
    by_cases hk : k = l
    · subst hk
      have hrest : ∀ q ∈ t, q.1 ≠ k := fun q hq =>
        (List.rel_of_pairwise_cons hnd hq).symm
      rw [List.map_cons, map_bump_of_forall_ne hrest]
      simp [addRow, bump]
    · have hmem' : ∃ q ∈ t, q.1 = l := by
        obtain ⟨q, hq, hql⟩ := hmem
        rcases List.mem_cons.mp hq with rfl | hq'
        · exact absurd hql hk
        · exact ⟨q, hq', hql⟩
      have hp : bump l a (k, v) = (k, v) := by
        unfold bump
        rw [if_neg hk]
      simp only [addRow, if_neg hk, List.map_cons, hp]
      rw [ih (List.Pairwise.of_cons hnd) hmem']

theorem aggTotals_append (rows : List SalesRow) (r : SalesRow) (key : DimKey) :
    aggTotals (rows ++ [r]) key = aggStep key (aggTotals rows key) r := by
  simp [aggTotals, List.foldl_append]

/-- The running-totals invariant of `_aggregate_top_n`: every entry of
the association list carries an occurring label and the group sum of
the rows scanned so far, keys are distinct, and entries are ordered by
the index of the label's first occurrence; conversely every occurring
label has an entry. -/
theorem aggTotals_invariant (key : DimKey) (rows : List SalesRow) :
    (∀ p ∈ aggTotals rows key,
      (∃ r ∈ rows, getLabel r key = some p.1) ∧ p.2 = groupSum rows key p.1) ∧
    ((aggTotals rows key).Pairwise (fun a b => a.1 ≠ b.1)) ∧
    ((aggTotals rows key).Pairwise
      (fun a b => firstIdx key a.1 rows < firstIdx key b.1 rows)) ∧
    (∀ l, (∃ r ∈ rows, getLabel r key = some l) →
      ∃ p ∈ aggTotals rows key, p.1 = l) := by
  induction rows using List.reverseRecOn with
  | nil => simp [aggTotals]
  | append_singleton rs r ih =>
    obtain ⟨hval, hnd, hfi, hcomp⟩ := ih
    rw [aggTotals_append]
    cases hr : getLabel r key with
    | none =>
      simp only [aggStep, hr]
      refine ⟨?_, hnd, ?_, ?_⟩
      · intro p hp
        obtain ⟨⟨r', hr', hg⟩, hv⟩ := hval p hp
        refine ⟨⟨r', by simp [hr'], hg⟩, ?_⟩
        rw [groupSum_append, hr]
        simp [hv]
      · refine hfi.imp_of_mem ?_
        intro a b ha hb hab
        rw [firstIdx_append_of_occ ⟨_, (hval a ha).1.choose_spec.1, (hval a ha).1.choose_spec.2⟩,
          firstIdx_append_of_occ ⟨_, (hval b hb).1.choose_spec.1, (hval b hb).1.choose_spec.2⟩]
        exact hab
      · intro l hl
        obtain ⟨r', hr', hg⟩ := hl
        rcases List.mem_append.mp hr' with hmem | hmem
        · exact hcomp l ⟨r', hmem, hg⟩
        · rw [List.mem_singleton] at hmem
          subst hmem
          rw [hr] at hg
          exact absurd hg (by simp)
    | some l0 =>
      simp only [aggStep, hr]
      by_cases hocc : ∃ p ∈ aggTotals rs key, p.1 = l0
      · -- the key is already present: in-place value update
        have hocc_rows : ∃ r' ∈ rs, getLabel r' key = some l0 := by
          obtain ⟨p, hp, hpl⟩ := hocc
          obtain ⟨⟨r', hr', hg⟩, _⟩ := hval p hp
          exact ⟨r', hr', hpl ▸ hg⟩
        rw [addRow_eq_map_bump hnd hocc]
        refine ⟨?_, ?_, ?_, ?_⟩
        · intro q' hq'
          obtain ⟨q, hq, rfl⟩ := List.mem_map.mp hq'
          obtain ⟨⟨r', hr', hg⟩, hv⟩ := hval q hq
          refine ⟨⟨r', by simp [hr'], by rw [bump_fst]; exact hg⟩, ?_⟩
          rw [bump_fst, groupSum_append]
          unfold bump
          by_cases hql : q.1 = l0
          · rw [if_pos hql, hql, hr]
            simp [hv, hql]
          · rw [if_neg hql]
            have : ¬ getLabel r key = some q.1 := by
              rw [hr]
              simp only [Option.some.injEq]
              exact fun h => hql h.symm
            rw [if_neg this]
            simp [hv]
        · rw [List.pairwise_map]
          exact hnd.imp (by intro a b hab; rw [bump_fst, bump_fst]; exact hab)
        · rw [List.pairwise_map]
          refine hfi.imp_of_mem ?_
          intro a b ha hb hab
          rw [bump_fst, bump_fst,
            firstIdx_append_of_occ ⟨_, (hval a ha).1.choose_spec.1, (hval a ha).1.choose_spec.2⟩,
            firstIdx_append_of_occ ⟨_, (hval b hb).1.choose_spec.1, (hval b hb).1.choose_spec.2⟩]
          exact hab
        · intro l hl
          have : ∃ p ∈ aggTotals rs key, p.1 = l := by
            obtain ⟨r', hr', hg⟩ := hl
            rcases List.mem_append.mp hr' with hmem | hmem
            · exact hcomp l ⟨r', hmem, hg⟩
            · rw [List.mem_singleton] at hmem
              subst hmem
              rw [hr] at hg
              obtain rfl : l0 = l := by simpa using hg
              exact hocc
          obtain ⟨p, hp, hpl⟩ := this
          exact ⟨bump l0 (amtOf r) p, List.mem_map.mpr ⟨p, hp, rfl⟩, by rw [bump_fst]; exact hpl⟩
      · -- a new key: appended at the end
        have hnocc_rows : ¬ ∃ r' ∈ rs, getLabel r' key = some l0 := by
          intro hl
          exact hocc (hcomp l0 hl)
        have hne : ∀ p ∈ aggTotals rs key, p.1 ≠ l0 := by
          intro p hp hpl
          exact hocc ⟨p, hp, hpl⟩
        rw [addRow_of_forall_ne hne]
        refine ⟨?_, ?_, ?_, ?_⟩
        · intro p hp
          rcases List.mem_append.mp hp with hmem | hmem
          · obtain ⟨⟨r', hr', hg⟩, hv⟩ := hval p hmem
            refine ⟨⟨r', by simp [hr'], hg⟩, ?_⟩
            rw [groupSum_append]
            have : ¬ getLabel r key = some p.1 := by
              rw [hr]
              simp only [Option.some.injEq]
              exact fun h => hne p hmem h.symm
            rw [if_neg this]
            simp [hv]
          · rw [List.mem_singleton] at hmem
            subst hmem
            refine ⟨⟨r, by simp, hr⟩, ?_⟩
            rw [groupSum_append, if_pos hr, groupSum_of_not_occ hnocc_rows]
            simp
        · rw [List.pairwise_append]
          exact ⟨hnd, List.pairwise_singleton _ _, by
            intro a ha b hb
            rw [List.mem_singleton] at hb
            subst hb
            exact hne a ha⟩
        · rw [List.pairwise_append]
          refine ⟨?_, List.pairwise_singleton _ _, ?_⟩
          · refine hfi.imp_of_mem ?_
            intro a b ha hb hab
            rw [firstIdx_append_of_occ ⟨_, (hval a ha).1.choose_spec.1, (hval a ha).1.choose_spec.2⟩,
              firstIdx_append_of_occ ⟨_, (hval b hb).1.choose_spec.1, (hval b hb).1.choose_spec.2⟩]
            exact hab
          · intro a ha b hb
            rw [List.mem_singleton] at hb
            subst hb
            rw [firstIdx_append_of_occ ⟨_, (hval a ha).1.choose_spec.1, (hval a ha).1.choose_spec.2⟩,
              firstIdx_append_new hnocc_rows hr]
            exact firstIdx_lt_length_of_occ ⟨_, (hval a ha).1.choose_spec.1, (hval a ha).1.choose_spec.2⟩
        · intro l hl
          obtain ⟨r', hr', hg⟩ := hl
          rcases List.mem_append.mp hr' with hmem | hmem
          · obtain ⟨p, hp, hpl⟩ := hcomp l ⟨r', hmem, hg⟩
            exact ⟨p, by simp [hp], hpl⟩
          · rw [List.mem_singleton] at hmem
            rw [hmem, hr] at hg
            obtain rfl : l0 = l := by simpa using hg
            exact ⟨(l0, amtOf r), by simp, rfl⟩

/-- Stability skeleton: inserting `x` into a sorted list that is
pairwise `T`-related keeps pairwise `T`, provided `x` relates by `T`
forward to everything it passes over and backward from everything that
stays ahead of it. -/
theorem pairwise_orderedInsert_of {α : Type} (r : α → α → Prop) [DecidableRel r]
    [IsTrans α r] (T : α → α → Prop) (x : α) :
    ∀ l : List α, l.Pairwise r → l.Pairwise T →
      (∀ y ∈ l, r x y → T x y) → (∀ y ∈ l, ¬ r x y → T y x) →
      (List.orderedInsert r x l).Pairwise T := by
  intro l
  induction l with
  | nil =>
    intro _ _ _ _
    exact List.pairwise_singleton T x
  | cons y ys ih =>
    intro hsort hT h1 h2
    by_cases hxy : r x y
    · rw [List.orderedInsert, if_pos hxy]
      refine List.Pairwise.cons ?_ hT
      intro z hz
      rcases List.mem_cons.mp hz with rfl | hz'
      · exact h1 z (List.mem_cons_self _ _) hxy
      · have hyz : r y z := List.rel_of_pairwise_cons hsort hz'
        exact h1 z (List.mem_cons_of_mem _ hz') (IsTrans.trans x y z hxy hyz)
    · rw [List.orderedInsert, if_neg hxy]
      refine List.Pairwise.cons ?_
        (ih hsort.of_cons hT.of_cons
          (fun z hz h => h1 z (List.mem_cons_of_mem _ hz) h)
          (fun z hz h => h2 z (List.mem_cons_of_mem _ hz) h))
      intro z hz
      rcases (List.mem_orderedInsert r).mp hz with rfl | hz'
      · exact h2 y (List.mem_cons_self _ _) hxy
      · exact List.rel_of_pairwise_cons hT hz'

/-- A stable sort keeps equal-key elements in input order: if the input
is pairwise `S` and `S` together with the sort relation `r` implies
`T`, while a strict `r`-inversion also implies `T`, the sorted output
is pairwise `T`. -/
theorem pairwise_insertionSort_of {α : Type} (r : α → α → Prop) [DecidableRel r]
    [IsTotal α r] [IsTrans α r] (S T : α → α → Prop)
    (hST : ∀ a b, S a b → r a b → T a b)
    (hneg : ∀ a b, ¬ r a b → T b a) :
    ∀ l : List α, l.Pairwise S → (List.insertionSort r l).Pairwise T := by
  intro l
  induction l with
  | nil =>
    intro _
    simp
  | cons x xs ih =>
    intro hS
    rw [List.insertionSort]
    refine pairwise_orderedInsert_of r T x _ ?_ (ih hS.of_cons) ?_ ?_
    · exact List.sorted_insertionSort r xs
    · intro y hy hr
      have hyx : y ∈ xs := (List.mem_insertionSort r).mp hy
      exact hST x y (List.rel_of_pairwise_cons hS hyx) hr
    · intro y _ hr
      exact hneg x y hr

/-- Claim C4: for every dimension and every record collection, the
Top-N ranking has at most `n` entries, is sorted by per-group summed
amount in descending order (absent amounts counting 0), and groups
with equal sums retain the order in which their dimension value was
first encountered while scanning the records. -/
theorem claim_C4 (rows : List SalesRow) (key : DimKey) (n : Nat) :
    (aggregate_top_n rows key n).length ≤ n ∧
    (aggregate_top_n rows key n).Pairwise (fun a b => b.2 ≤ a.2) ∧
    (∀ p ∈ aggregate_top_n rows key n, p.2 = groupSum rows key p.1) ∧
    (aggregate_top_n rows key n).Pairwise
      (fun a b => a.2 = b.2 → firstIdx key a.1 rows < firstIdx key b.1 rows) := by
  obtain ⟨hval, hnd, hfi, hcomp⟩ := aggTotals_invariant key rows
  have hsub :
      List.Sublist (aggregate_top_n rows key n)
        (List.insertionSort amtGe (aggTotals rows key)) :=
    List.take_sublist n _
  refine ⟨?_, ?_, ?_, ?_⟩
  · rw [aggregate_top_n, List.length_take]
    exact min_le_left n _
  · refine List.Pairwise.sublist hsub ?_
    have hs := List.sorted_insertionSort amtGe (aggTotals rows key)
    exact hs.imp (fun h => h)
  · intro p hp
    have hp1 : p ∈ List.insertionSort amtGe (aggTotals rows key) := hsub.subset hp
    have hp2 : p ∈ aggTotals rows key := (List.mem_insertionSort amtGe).mp hp1
    exact (hval p hp2).2
  · refine List.Pairwise.sublist hsub ?_
    have hstable :=
      pairwise_insertionSort_of amtGe
        (fun a b => firstIdx key a.1 rows < firstIdx key b.1 rows)
        (fun a b => b.2 < a.2 ∨
          (a.2 = b.2 ∧ firstIdx key a.1 rows < firstIdx key b.1 rows))
        (by
          intro a b hS hr
          rcases lt_or_eq_of_le (hr : b.2 ≤ a.2) with hlt | heq
          · exact Or.inl hlt
          · exact Or.inr ⟨heq.symm, hS⟩)
        (by
          intro a b hr
          have : a.2 < b.2 := lt_of_not_le hr
          exact Or.inl this)
        (aggTotals rows key) hfi
    refine hstable.imp ?_
    intro a b hab heq
    rcases hab with hlt | ⟨_, hfi'⟩
    · rw [heq] at hlt
      exact absurd hlt (lt_irrefl _)
    · exact hfi'

theorem claim_C4_witness :
    (aggregate_top_n [] DimKey.customer 10).length ≤ 10 :=
  (claim_C4 [] DimKey.customer 10).1

/-! ### Claim C8: the numeric normalizer -/

theorem cleanNum_dropWhile (l : List Char) :
    cleanNum (l.dropWhile Char.isWhitespace) = cleanNum l := by
  induction l with
  | nil => rfl
  | cons c cs ih =>
    by_cases hw : c.isWhitespace = true
    · have hnp : (c.isDigit || c = '-') = false := by
        rcases (by simpa [Char.isWhitespace] using hw :
          ((c = ' ' ∨ c = '\t') ∨ c = '\r') ∨ c = '\n') with
          ((rfl | rfl) | rfl) | rfl <;> decide
      simp [List.dropWhile, hw, cleanNum, hnp]
      simpa [cleanNum] using ih
    · simp [List.dropWhile, hw, cleanNum]

theorem cleanNum_reverse (l : List Char) : cleanNum l.reverse = (cleanNum l).reverse := by
  simp [cleanNum, List.filter_reverse]

theorem cleanNum_pyStrip (l : List Char) : cleanNum (pyStrip l) = cleanNum l := by
  unfold pyStrip
  rw [cleanNum_reverse, cleanNum_dropWhile, cleanNum_reverse, List.reverse_reverse,
    cleanNum_dropWhile]

/-- Claim C8: `_parse_number` is total; it keeps only digit and minus
characters, yields `None` (absence, not zero) when nothing or a lone
minus remains, parses the remainder otherwise, and in particular maps
`"20,000"` to `20000`, `""` to `None` and `"-"` to `None`. -/
theorem claim_C8 :
    (∀ s : String, cleanNum s.toList = [] ∨ cleanNum s.toList = ['-'] →
      parse_number s = none) ∧
    (∀ (s : String) (q : Rat), floatOfCleaned (cleanNum s.toList) = some q →
      cleanNum s.toList ≠ ['-'] → parse_number s = some q) ∧
    parse_number "20,000" = some 20000 ∧
    parse_number "" = none ∧
    parse_number "-" = none := by
  refine ⟨?_, ?_, by decide, by decide, by decide⟩
  · intro s h
    unfold parse_number
    by_cases hs : pyStrip s.toList = []
    · rw [if_pos hs]
    · rw [if_neg hs, if_pos]
      rw [cleanNum_pyStrip]
      exact h
  · intro s q hq hminus
    have hnil : cleanNum s.toList ≠ [] := by
      intro hn
      rw [hn] at hq
      simp [floatOfCleaned, allDigits] at hq
    unfold parse_number
    have hs : pyStrip s.toList ≠ [] := by
      intro hstrip
      apply hnil
      rw [← cleanNum_pyStrip, hstrip]
      rfl
    rw [if_neg hs, if_neg, cleanNum_pyStrip]
    · exact hq
    · rw [cleanNum_pyStrip]
      push_neg
      exact ⟨hnil, hminus⟩

theorem claim_C8_witness : parse_number "12a3" = some 123 :=
  claim_C8.2.1 "12a3" 123 (by decide) (by decide)

/-! ### Claims C6 and C7: the ingestion date normalizer -/

theorem dropWhile_no_ws {l : List Char} (h : ∀ c ∈ l, c.isWhitespace = false) :
    l.dropWhile Char.isWhitespace = l := by
  cases l with
  | nil => rfl
  | cons c cs => simp [List.dropWhile, h c (by simp)]

theorem pyStrip_no_ws {l : List Char} (h : ∀ c ∈ l, c.isWhitespace = false) :
    pyStrip l = l := by
  unfold pyStrip
  rw [dropWhile_no_ws h, dropWhile_no_ws (by
    intro c hc
    exact h c (List.mem_reverse.mp hc)), List.reverse_reverse]

theorem pySplitWsGo_no_ws :
    ∀ (l cur : List Char), (∀ c ∈ l, c.isWhitespace = false) →
      pySplitWsGo l cur =
        (if cur.reverse ++ l = [] then [] else [cur.reverse ++ l]) := by
  intro l
  induction l with
  | nil =>
    intro cur _
    simp [pySplitWsGo]
  | cons c cs ih =>
    intro cur h
    have hc : c.isWhitespace = false := h c (by simp)
    rw [pySplitWsGo, if_neg (by simp [hc]), ih (c :: cur) (fun d hd => h d (by simp [hd]))]
    simp

theorem pySplitWs_no_ws {l : List Char} (hne : l ≠ [])
    (h : ∀ c ∈ l, c.isWhitespace = false) : pySplitWs l = [l] := by
  unfold pySplitWs
  rw [pySplitWsGo_no_ws l [] h]
  simp [hne]

theorem string_mk_toList (s : String) : String.mk s.toList = s := rfl

theorem claim_C6_counterexample :
    parse_date "31/01/2025" = "31/01/2025" ∧ "31/01/2025" ≠ "2025-01-31" := by
  constructor <;> decide

/-- Claim C6 (amended): the ingestion date normalizer recognizes only
the free-text `"<day> <month> <year>"` form; every nonempty input
containing no whitespace — canonical ISO `YYYY-MM-DD` (identity, hence
idempotent) and the slash-delimited `DD/MM/YYYY` / `DD/MM/YY` forms in
particular — is returned unchanged, not canonicalized. -/
theorem claim_C6 (s : String) (hne : s ≠ "")
    (hws : ∀ c ∈ s.toList, c.isWhitespace = false) :
    parse_date s = s := by
  have htl : s.toList ≠ [] := by
    intro h
    apply hne
    cases s
    simp at h
    simp [h]
  have hstrip : pyStrip s.toList = s.toList := pyStrip_no_ws hws
  have hsplit : pySplitWs s.toList = [s.toList] := pySplitWs_no_ws htl hws
  unfold parse_date
  rw [hstrip, if_neg htl, hsplit]
  exact string_mk_toList s

theorem claim_C6_witness : parse_date "2025-12-01" = "2025-12-01" :=
  claim_C6 "2025-12-01" (by decide) (by decide)

theorem claim_C7_counterexample :
    parse_date " 01 Xyz 2025 " = "01 Xyz 2025" ∧
    (" 01 Xyz 2025 " : String) ≠ "01 Xyz 2025" := by
  constructor <;> decide

/-- Claim C7 (amended): the free-text date form maps `"01 Des 2025"` to
`"2025-12-01"` and `"15 Mei 2024"` to `"2024-05-15"`, matching the
month abbreviation case-insensitively on its first three letters
against the English/Indonesian table (MEI, AGU/AUG, OKT/OCT, DES/DEC
included); when the month key is unknown, or the day/year do not form
a valid calendar date (the tokens fail to parse as integers, or the
parsed values name no calendar day), the normalizer returns the
stripped input text — the input itself whenever it carries no
surrounding whitespace — and never raises. -/
theorem claim_C7 :
    parse_date "01 Des 2025" = "2025-12-01" ∧
    parse_date "15 Mei 2024" = "2024-05-15" ∧
    parse_date "01 DES 2025" = "2025-12-01" ∧
    parse_date "01 des 2025" = "2025-12-01" ∧
    parse_date "15 MEI 2024" = "2024-05-15" ∧
    parse_date "05 Agu 2024" = "2024-08-05" ∧
    parse_date "05 Aug 2024" = "2024-08-05" ∧
    parse_date "07 Okt 2023" = "2023-10-07" ∧
    parse_date "07 Oct 2023" = "2023-10-07" ∧
    parse_date "03 Dec 2025" = "2025-12-03" ∧
    (∀ (s : String) (d m y : List Char),
      pySplitWs (pyStrip s.toList) = [d, m, y] →
      MONTH_MAP (monKey m) = none →
      parse_date s = String.mk (pyStrip s.toList)) ∧
    (∀ (s : String) (d m y : List Char) (mo : Nat),
      pySplitWs (pyStrip s.toList) = [d, m, y] →
      MONTH_MAP (monKey m) = some mo →
      (∀ (dv yv : Int), pyInt d = some dv → pyInt y = some yv →
        ¬ (0 ≤ dv ∧ 0 ≤ yv ∧ validYMD yv.toNat mo dv.toNat = true)) →
      parse_date s = String.mk (pyStrip s.toList)) := by
  refine ⟨by decide, by decide, by decide, by decide, by decide, by decide, by decide,
    by decide, by decide, by decide, ?_, ?_⟩
  · intro s d m y hsplit hmon
    have hne : pyStrip s.toList ≠ [] := by
      intro h
      rw [h] at hsplit
      simp [pySplitWs, pySplitWsGo] at hsplit
    unfold parse_date
    rw [if_neg hne, hsplit]
    simp only [hmon]
  · intro s d m y mo hsplit hmon hbad
    have hne : pyStrip s.toList ≠ [] := by
      intro h
      rw [h] at hsplit
      simp [pySplitWs, pySplitWsGo] at hsplit
    unfold parse_date
    rw [if_neg hne, hsplit]
    simp only [hmon]
    cases hd : pyInt d with
    | none =>
      cases hy : pyInt y with
      | none => simp only [hd, hy]
      | some yv => simp only [hd, hy]
    | some dv =>
      cases hy : pyInt y with
      | none => simp only [hd, hy]
      | some yv =>
        simp only [hd, hy]
        rw [if_neg (hbad dv yv hd hy)]

theorem claim_C7_witness : parse_date "1st Des 2025" = "1st Des 2025" := by
  have h := claim_C7.2.2.2.2.2.2.2.2.2.2.2 "1st Des 2025"
    "1st".toList "Des".toList "2025".toList 12 (by decide) (by decide)
    (by
      intro dv yv hdv hyv
      rw [(by decide : pyInt "1st".toList = none)] at hdv
      exact absurd hdv (by simp))
  rw [h]
  decide

/-! ### Claim C9: the tabular extractor's row acceptance -/

/-- A 26-cell row: it extends through the amount offset (25) with a
valid date cell, but not through the optional trailing columns. -/
def c9row : List String :=
  (List.range 26).map
    (fun i => if i = 1 then "2025-12-01" else if i = 25 then "100" else "")

theorem claim_C9_counterexample :
    26 ≤ c9row.length ∧ cell c9row 1 ≠ "" ∧ cell c9row 1 ≠ "Date" ∧
    cell c9row 25 = "100" ∧ parse_html_content [c9row] = [] := by
  refine ⟨by decide, by decide, by decide, by decide, by decide⟩

/-- Claim C9 (amended): a row produces a record iff it has at least 38
cells — the offset past the last (optional) column — and a date cell
that is neither empty nor the header label; a row reaching the amount
offset but shorter than 38 cells is rejected, so the optional-column
defaults never fire, and in produced records an optional field is
absent exactly when its cell text is empty. -/
theorem claim_C9 (tds : List String) :
    ((tds.length < 38 ∨ cell tds 1 = "" ∨ cell tds 1 = "Date") →
      parseRow tds = none) ∧
    (38 ≤ tds.length → cell tds 1 ≠ "" → cell tds 1 ≠ "Date" →
      parseRow tds = some
        { invoice_date := parse_date (cell tds 1)
          invoice_no := cell tds 5
          customer := some (cell tds 9)
          salesman := some (cell tds 13)
          item := some (cell tds 17)
          qty := parse_number (cell tds 21)
          amount := parse_number (cell tds 25)
          item_category := if cell tds 29 = "" then none else some (cell tds 29)
          city := if cell tds 33 = "" then none else some (cell tds 33)
          customer_type := if cell tds 37 = "" then none else some (cell tds 37) }) := by
  constructor
  · intro h
    unfold parseRow
    rcases h with h | h | h
    · rw [if_pos h]
    · by_cases hlen : tds.length < 38
      · rw [if_pos hlen]
      · rw [if_neg hlen, if_pos (Or.inl h)]
    · by_cases hlen : tds.length < 38
      · rw [if_pos hlen]
      · rw [if_neg hlen, if_pos (Or.inr h)]
  · intro h38 hne hnd
    simp only [parseRow]
    rw [if_neg (show ¬ tds.length < 38 by omega),
      if_neg (not_or.mpr ⟨hne, hnd⟩),
      if_pos (show tds.length > 29 by omega),
      if_pos (show tds.length > 33 by omega),
      if_pos (show tds.length > 37 by omega)]

def c9full : List String :=
  (List.range 38).map
    (fun i => if i = 1 then "2025-12-01" else if i = 25 then "100" else "")

theorem claim_C9_witness :
    parseRow c9full = some
      { invoice_date := parse_date (cell c9full 1)
        invoice_no := cell c9full 5
        customer := some (cell c9full 9)
        salesman := some (cell c9full 13)
        item := some (cell c9full 17)
        qty := parse_number (cell c9full 21)
        amount := parse_number (cell c9full 25)
        item_category := if cell c9full 29 = "" then none else some (cell c9full 29)
        city := if cell c9full 33 = "" then none else some (cell c9full 33)
        customer_type := if cell c9full 37 = "" then none else some (cell c9full 37) } :=
  (claim_C9 c9full).2 (by decide) (by decide) (by decide)

/-! ### Claim C5: the end-to-end example -/

/-- The two example rows of the specification, at the extractor's
column offsets (date 1, customer 9, amount 25). -/
def c5row (date cust amt : String) : List String :=
  (List.range 38).map
    (fun i => if i = 1 then date else if i = 9 then cust else if i = 25 then amt else "")

def c5rows : List SalesRow :=
  parse_html_content
    [c5row "01 Des 2025" "A" "100,000", c5row "02 Jan 2026" "B" "50,000"]

/-- The canonical records the two rows actually produce. -/
def c5rec1 : SalesRow :=
  { invoice_date := "2025-12-01", invoice_no := "", customer := some "A",
    salesman := some "", item := some "", qty := none, amount := some 100000,
    item_category := none, city := none, customer_type := none }

def c5rec2 : SalesRow :=
  { invoice_date := "2026-01-02", invoice_no := "", customer := some "B",
    salesman := some "", item := some "", qty := none, amount := some 50000,
    item_category := none, city := none, customer_type := none }

theorem claim_C5_counterexample :
    c5rows.map (fun r => r.invoice_date) = ["2025-12-01", "2026-01-02"] ∧
    ("2026-01-02" : String) ≠ "2026-01-01" := by
  constructor <;> decide

/-- Claim C5 (amended): the two rows ingest to two canonical records
with invoice dates `2025-12-01` and `2026-01-02` (the second day is
the 2nd, not the 1st), and the month-over-month summary over them
reports current-month total 50000, previous-month total 100000,
difference -50000 and percentage -1/2. -/
theorem claim_C5 :
    c5rows.map (fun r => r.invoice_date) = ["2025-12-01", "2026-01-02"] ∧
    (build_dashboard_data c5rows).total_month_current = some 50000 ∧
    (build_dashboard_data c5rows).total_month_prev = some 100000 ∧
    (build_dashboard_data c5rows).total_month_diff = some (-50000) ∧
    (build_dashboard_data c5rows).total_month_diff_pct = some (-(1 / 2)) := by
  have hrows : c5rows = [c5rec1, c5rec2] := by decide
  have hym1 : get_year_month "2025-12-01" = some (2025, 12) := by decide
  have hym2 : get_year_month "2026-01-02" = some (2026, 1) := by decide
  have hmax : pyMax (allMonths c5rows) = some (2026, 1) := by
    rw [hrows]
    decide
  have hprev : get_prev_year_month 2026 1 = (2025, 12) := by decide
  have hneq : ((2026 : Nat), (1 : Nat)) ≠ get_prev_year_month 2026 1 := by decide
  have hmom := momTotals_eq (2026, 1) (get_prev_year_month 2026 1) hneq c5rows
  have hcur : monthSum c5rows (2026, 1) = 50000 := by
    rw [hrows]
    simp [monthSum, c5rec1, c5rec2, hym1, hym2, amtOf]
  have hprevsum : monthSum c5rows (get_prev_year_month 2026 1) = 100000 := by
    rw [hrows, hprev]
    simp [monthSum, c5rec1, c5rec2, hym1, hym2, amtOf]
  obtain ⟨hf1, hf2, hf3, hf4⟩ := build_dashboard_month_fields c5rows (2026, 1) hmax
  simp only [show ((2026 : Nat), (1 : Nat)).1 = 2026 from rfl,
    show ((2026 : Nat), (1 : Nat)).2 = 1 from rfl] at hf1 hf2 hf3 hf4
  rw [hmom] at hf1 hf2 hf3 hf4
  refine ⟨by decide, ?_, ?_, ?_, ?_⟩
  · rw [hf1, hcur]
  · rw [hf2, hprevsum]
  · rw [hf3, hcur, hprevsum]
    norm_num
  · rw [hf4, hcur, hprevsum]
    rw [if_pos (by norm_num : (100000 : Rat) ≠ 0)]
    congr 1
    norm_num

/-! ### Claim C10: empty text behaves as absence in aggregation -/

/-- Turn empty-string dimension values into `None` (the `amount`,
`qty`, `invoice_date` and `invoice_no` fields are untouched). -/
def blankOptToNone : Option String → Option String
  | none => none
  | some s => if s = "" then none else some s

def blankToNone (r : SalesRow) : SalesRow :=
  { r with
    customer := blankOptToNone r.customer
    salesman := blankOptToNone r.salesman
    item := blankOptToNone r.item
    item_category := blankOptToNone r.item_category
    city := blankOptToNone r.city
    customer_type := blankOptToNone r.customer_type }

theorem dimVal_blankToNone (r : SalesRow) (key : DimKey) :
    dimVal (blankToNone r) key = blankOptToNone (dimVal r key) := by
  cases key <;> rfl

theorem getLabel_blankOpt (x : Option String) :
    (match blankOptToNone x with
      | none => none
      | some s => if s = "" then none else some s) =
    (match x with
      | none => (none : Option String)
      | some s => if s = "" then none else some s) := by
  cases x with
  | none => rfl
  | some s =>
    by_cases hs : s = ""
    · simp [blankOptToNone, hs]
    · simp [blankOptToNone, hs]

theorem getLabel_blankToNone (r : SalesRow) (key : DimKey) :
    getLabel (blankToNone r) key = getLabel r key := by
  unfold getLabel
  rw [dimVal_blankToNone]
  exact getLabel_blankOpt (dimVal r key)

theorem amtOf_blankToNone (r : SalesRow) : amtOf (blankToNone r) = amtOf r := rfl

theorem invoice_date_blankToNone (r : SalesRow) :
    (blankToNone r).invoice_date = r.invoice_date := rfl

theorem foldl_map_blank {β : Type} (g : β → SalesRow → β)
    (h : ∀ acc r, g acc (blankToNone r) = g acc r) (rows : List SalesRow)
    (init : β) : (rows.map blankToNone).foldl g init = rows.foldl g init := by
  rw [List.foldl_map]
  exact List.foldl_ext _ _ init (fun acc r _ => h acc r)

theorem aggTotals_blankToNone (rows : List SalesRow) (key : DimKey) :
    aggTotals (rows.map blankToNone) key = aggTotals rows key := by
  unfold aggTotals
  refine foldl_map_blank (aggStep key) ?_ rows []
  intro acc r
  unfold aggStep
  rw [getLabel_blankToNone, amtOf_blankToNone]

theorem aggregate_top_n_blankToNone (rows : List SalesRow) (key : DimKey) (n : Nat) :
    aggregate_top_n (rows.map blankToNone) key n = aggregate_top_n rows key n := by
  unfold aggregate_top_n
  rw [aggTotals_blankToNone]

theorem build_monthly_top_blankToNone (rows : List SalesRow) (dim : DimKey)
    (baseY baseM : Nat) :
    build_monthly_top (rows.map blankToNone) dim baseY baseM =
      build_monthly_top rows dim baseY baseM := by
  simp only [build_monthly_top]
  rw [foldl_map_blank]
  intro acc r
  rw [invoice_date_blankToNone, getLabel_blankToNone, amtOf_blankToNone]

theorem customersList_blankToNone (rows : List SalesRow) :
    customersList (rows.map blankToNone) = customersList rows := by
  unfold customersList
  rw [foldl_map_blank]
  intro acc r
  show (match (blankToNone r).customer with
    | none => acc
    | some c => if c = "" then acc else if acc.contains c then acc else acc ++ [c]) = _
  have hc : (blankToNone r).customer = blankOptToNone r.customer := rfl
  rw [hc]
  cases r.customer with
  | none => rfl
  | some c =>
    by_cases hce : c = ""
    · simp [blankOptToNone, hce]
    · simp [blankOptToNone, hce]

theorem build_dashboard_customer_count (rows : List SalesRow) :
    (build_dashboard_data rows).customer_count = (customersList rows).length := by
  cases hm : pyMax (allMonths rows) <;> simp only [build_dashboard_data, hm]

theorem getLabel_ne_empty {r : SalesRow} {key : DimKey} {l : String}
    (h : getLabel r key = some l) : l ≠ "" := by
  unfold getLabel at h
  cases hd : dimVal r key with
  | none => rw [hd] at h; simp at h
  | some s =>
    rw [hd] at h
    have h' : (if s = "" then none else some s) = some l := h
    by_cases hs : s = ""
    · rw [if_pos hs] at h'
      simp at h'
    · rw [if_neg hs] at h'
      obtain rfl : s = l := by simpa using h'
      exact hs

/-- Claim C10: a record whose dimension value is the empty string is
treated exactly like one whose value is absent — rewriting every empty
dimension value to `None` changes neither the Top-N ranking, nor the
month-over-month-by-dimension ranking, nor the distinct customer
count; consequently the empty string never appears as a group label. -/
theorem claim_C10 (rows : List SalesRow) (key dim : DimKey) (n baseY baseM : Nat) :
    aggregate_top_n (rows.map blankToNone) key n = aggregate_top_n rows key n ∧
    build_monthly_top (rows.map blankToNone) dim baseY baseM =
      build_monthly_top rows dim baseY baseM ∧
    (build_dashboard_data (rows.map blankToNone)).customer_count =
      (build_dashboard_data rows).customer_count ∧
    (∀ p ∈ aggregate_top_n rows key n, p.1 ≠ "") := by
  refine ⟨aggregate_top_n_blankToNone rows key n,
    build_monthly_top_blankToNone rows dim baseY baseM, ?_, ?_⟩
  · rw [build_dashboard_customer_count, build_dashboard_customer_count,
      customersList_blankToNone]
  · intro p hp
    obtain ⟨hval, _, _, _⟩ := aggTotals_invariant key rows
    have hp1 : p ∈ List.insertionSort amtGe (aggTotals rows key) :=
      (List.take_sublist n _).subset hp
    have hp2 : p ∈ aggTotals rows key := (List.mem_insertionSort amtGe).mp hp1
    obtain ⟨⟨r, _, hg⟩, _⟩ := hval p hp2
    exact getLabel_ne_empty hg

def c10row : SalesRow :=
  { invoice_date := "2025-12-01", invoice_no := "", customer := some "",
    salesman := some "", item := some "x", qty := none, amount := some 7,
    item_category := some "", city := none, customer_type := none }

theorem claim_C10_witness :
    aggregate_top_n ([c10row].map blankToNone) DimKey.customer 10 =
      aggregate_top_n [c10row] DimKey.customer 10 :=
  (claim_C10 [c10row] DimKey.customer DimKey.item 10 2025 12).1

end Pbiacis
